import Mathlib

/-!
Shallow embedding of `ChessVar.py`, a "King of the Hill" chess variant.

Modelling conventions:
* Python strings are embedded as `List Char`; board cells are single
  characters (`Char`), with `' '` as the empty marker, exactly as in the
  source.
* Python code that would raise an exception (unpacking the `None` sentinel
  returned by `notation_to_index`, or `chr` on an out-of-range code point)
  is modelled by propagating `none` through `Option`.
* The `while` loop of `Piece._path_is_clear` is embedded with explicit
  fuel; running out of fuel (`none`) models divergence of the Python loop.
  Fuel 8 is enough for every straight line on the 8×8 board (at most 7
  iterations before the destination is reached).
* Machine integers are `Int` (Python ints are unbounded, so no wrap-around
  is involved).
-/

/-- The board: a list of 8 rows of 8 one-character cells
(`Board._board` in the source). -/
abbrev Board := List (List Char)

/-- Source `Board.__init__`: the standard initial position. -/
def Board.initial : Board :=
  [['r', 'n', 'b', 'q', 'k', 'b', 'n', 'r'],
   ['p', 'p', 'p', 'p', 'p', 'p', 'p', 'p'],
   [' ', ' ', ' ', ' ', ' ', ' ', ' ', ' '],
   [' ', ' ', ' ', ' ', ' ', ' ', ' ', ' '],
   [' ', ' ', ' ', ' ', ' ', ' ', ' ', ' '],
   [' ', ' ', ' ', ' ', ' ', ' ', ' ', ' '],
   ['P', 'P', 'P', 'P', 'P', 'P', 'P', 'P'],
   ['R', 'N', 'B', 'Q', 'K', 'B', 'N', 'R']]

/-- Source `Board.is_within_bounds(position)`:
`len(position) == 2 and position[0] in "abcdefgh" and position[1] in "12345678"`.
(Python `c in str` on a one-character lookup is character membership.) -/
def Board.is_within_bounds (pos : List Char) : Bool :=
  pos.length == 2 && "abcdefgh".toList.contains (pos.getD 0 ' ')
    && "12345678".toList.contains (pos.getD 1 ' ')

/-- Source `Board.notation_to_index(notation)`: `None` on malformed input, else
`(8 - int(row), ord(col) - ord('a'))`.  `int(row)` of a digit character is
its code point minus 48; `ord('a') = 97`. -/
def Board.notation_to_index (s : List Char) : Option (Int × Int) :=
  if s.length ≠ 2 then none
  else
    let col := s.getD 0 ' '
    let row := s.getD 1 ' '
    if ¬ ("abcdefgh".toList.contains col = true)
        ∨ ¬ ("12345678".toList.contains row = true) then none
    else some (8 - ((row.toNat : Int) - 48), (col.toNat : Int) - 97)

/-- Reading `self._board[x][y]` for the index pairs produced by
`notation_to_index` (always in `[0,7]`, so plain `getD` indexing is the
Python behaviour on every exercised input). -/
def getCell (b : Board) (x y : Int) : Char :=
  (b.getD x.toNat []).getD y.toNat ' '

/-- Writing `self._board[x][y] = c` (in-place row mutation, functionally). -/
def setCell (b : Board) (x y : Int) (c : Char) : Board :=
  b.set x.toNat ((b.getD x.toNat []).set y.toNat c)

/-- Source `Board.get_piece_at(position)`: unpacks the result of
`notation_to_index`; when that is the `None` sentinel the unpacking raises
`TypeError`, modelled as `none`. -/
def Board.get_piece_at (b : Board) (pos : List Char) : Option Char :=
  match Board.notation_to_index pos with
  | none => none
  | some (x, y) => some (getCell b x y)

/-- Source `Board.move_piece(current_square, next_square)`: unpacks both index
pairs (raising on the `None` sentinel, modelled as `none`), then
`board[to] = board[from]; board[from] = ' '`.  The source's
`if from_x is None or to_x is None` guard sits after the unpacking and can
never fire, so it does not appear as a reachable branch. -/
def Board.move_piece (b : Board) (cur nxt : List Char) : Option Board :=
  match Board.notation_to_index cur, Board.notation_to_index nxt with
  | some (fx, fy), some (tx, ty) =>
      some (setCell (setCell b tx ty (getCell b fx fy)) fx fy ' ')
  | _, _ => none

/-- Source `Board.king_exists(color)`:
`any(king_symbol in row for row in self._board)`. -/
def Board.king_exists (b : Board) (color : String) : Bool :=
  let king_symbol := if color = "WHITE" then 'K' else 'k'
  b.any (fun row => row.contains king_symbol)

/-- Python `chr(n)`: raises `ValueError` outside the Unicode range,
modelled as `none`. -/
def pyChr (n : Int) : Option Char :=
  if 0 ≤ n ∧ n < 1114112 then some (Char.ofNat n.toNat) else none

/-- Python `str(n)` for an `int`: decimal digits, with a leading minus
sign for negative values. -/
def pyStr (n : Int) : List Char :=
  if n < 0 then '-' :: Nat.toDigits 10 n.natAbs else Nat.toDigits 10 n.toNat

/-- The square-name expression `chr(y + ord('a')) + str(8 - x)` used by
`_path_is_clear` (and, with `x := from_x + direction`, `y := from_y`, by
the pawn double-step rule). -/
def squareOf (x y : Int) : Option (List Char) :=
  (pyChr (y + 97)).map (fun c => c :: pyStr (8 - x))

/-- The step computation of `_path_is_clear`:
`0 if d == 0 else (1 if d > 0 else -1)`. -/
def stepOf (d : Int) : Int :=
  if d = 0 then 0 else if d > 0 then 1 else -1

/-- The `while (x, y) != (to_x, to_y)` loop of `Piece._path_is_clear`,
with explicit fuel; `none` models divergence or an exception raised by
`get_piece_at` on an off-board square name. -/
def pathLoop (b : Board) (tx ty sx sy : Int) : Nat → Int → Int → Option Bool
  | 0, _, _ => none
  | fuel + 1, x, y =>
    if x = tx ∧ y = ty then some true
    else
      match squareOf x y with
      | none => none
      | some sq =>
        match Board.get_piece_at b sq with
        | none => none
        | some c =>
          if c ≠ ' ' then some false
          else pathLoop b tx ty sx sy fuel (x + sx) (y + sy)

/-- Source `Piece._path_is_clear(from_x, from_y, to_x, to_y, board)`. -/
def Piece.path_is_clear (fx fy tx ty : Int) (b : Board) : Option Bool :=
  let sx := stepOf (tx - fx)
  let sy := stepOf (ty - fy)
  pathLoop b tx ty sx sy 8 (fx + sx) (fy + sy)

/-- Source `Piece.is_valid_move(current_square, next_square, board)` for a piece
whose `_piece_type` is `piece` (and `_piece_lower` is `piece.toLower`).
The knight's tuple membership `(|dx|, |dy|) in [(2,1),(1,2)]` is written
as the corresponding disjunction. -/
def Piece.is_valid_move (piece : Char) (cur nxt : List Char) (b : Board) :
    Option Bool :=
  match Board.notation_to_index cur, Board.notation_to_index nxt with
  | some (fx, fy), some (tx, ty) =>
    let dx := tx - fx
    let dy := ty - fy
    match Board.get_piece_at b nxt with
    | none => none
    | some dest =>
      -- Prevent moving onto a square occupied by the same color
      if dest ≠ ' '
          ∧ ((piece.isUpper = true ∧ dest.isUpper = true)
              ∨ (piece.isLower = true ∧ dest.isLower = true)) then
        some false
      -- Pawn rules
      else if piece.toLower = 'p' then
        let direction : Int := if piece.isUpper = true then -1 else 1
        let start_row : Int := if piece.isUpper = true then 6 else 1
        if dy = 0 ∧ dx = direction then
          (Board.get_piece_at b nxt).map (fun c => c == ' ')
        else if dy = 0 ∧ dx = 2 * direction ∧ fx = start_row then
          match squareOf (fx + direction) fy with
          | none => none
          | some between_square =>
            match Board.get_piece_at b between_square,
                  Board.get_piece_at b nxt with
            | some c1, some c2 => some (c1 == ' ' && c2 == ' ')
            | _, _ => none
        else if dy.natAbs = 1 ∧ dx = direction then
          some (dest != ' ' && dest.isUpper != piece.isUpper)
        else some false
      -- Rook rules
      else if piece.toLower = 'r' then
        if fx = tx ∨ fy = ty then Piece.path_is_clear fx fy tx ty b
        else some false
      -- Bishop rules
      else if piece.toLower = 'b' then
        if dx.natAbs = dy.natAbs then Piece.path_is_clear fx fy tx ty b
        else some false
      -- Knight rules
      else if piece.toLower = 'n' then
        if (dx.natAbs = 2 ∧ dy.natAbs = 1) ∨ (dx.natAbs = 1 ∧ dy.natAbs = 2) then
          some (dest == ' ' || dest.isUpper != piece.isUpper)
        else some false
      -- Queen rules
      else if piece.toLower = 'q' then
        if fx = tx ∨ fy = ty ∨ dx.natAbs = dy.natAbs then
          Piece.path_is_clear fx fy tx ty b
        else some false
      -- King rules
      else if piece.toLower = 'k' then
        if max dx.natAbs dy.natAbs = 1 then
          some (dest == ' ' || dest.isUpper != piece.isUpper)
        else some false
      else some false
  | _, _ => none

/-- The state of a `ChessVar` object: `_board`, `_game_state`, `_turn`. -/
structure ChessVar where
  board : Board
  game_state : String
  turn : String
deriving DecidableEq

/-- Source `ChessVar.__init__`. -/
def ChessVar.init : ChessVar := ⟨Board.initial, "UNFINISHED", "WHITE"⟩

/-- Source `ChessVar.get_game_state`. -/
def ChessVar.get_game_state (g : ChessVar) : String := g.game_state

/-- Source `ChessVar.get_turn`. -/
def ChessVar.get_turn (g : ChessVar) : String := g.turn

/-- Source `ChessVar.get_piece_at`. -/
def ChessVar.get_piece_at (g : ChessVar) (pos : List Char) : Option Char :=
  Board.get_piece_at g.board pos

/-- Python truthiness of the value returned by `get_piece_at`: it is
always a one-character string (a board cell), and a non-empty string is
truthy, so the `if not piece` guard of `make_move` is constantly false. -/
def charFalsy (_ : Char) : Bool := false

/-- The center-square list `['d4', 'e4', 'd5', 'e5']`. -/
def centerSquares : List (List Char) :=
  ["d4".toList, "e4".toList, "d5".toList, "e5".toList]

/-- Source `ChessVar.make_move(current_square, next_square)`, returning the pair
(result, new object state); `none` models an uncaught exception. -/
def ChessVar.make_move (g : ChessVar) (cur nxt : List Char) :
    Option (Bool × ChessVar) :=
  -- Invalid move: Game already over
  if g.game_state ≠ "UNFINISHED" then some (false, g)
  -- Invalid move: Current or next square chosen is out of bounds
  else if ¬ (Board.is_within_bounds cur = true)
      ∨ ¬ (Board.is_within_bounds nxt = true) then some (false, g)
  else
    -- Invalid move: No piece at current/starting square
    match Board.get_piece_at g.board cur with
    | none => none
    | some piece =>
      if charFalsy piece = true then some (false, g)
      -- Invalid move: Not player's turn
      else if (g.turn = "WHITE" ∧ piece.isLower = true)
          ∨ (g.turn = "BLACK" ∧ piece.isUpper = true) then some (false, g)
      else
        -- Invalid move: Does not follow rules of chess piece
        match Piece.is_valid_move piece cur nxt g.board with
        | none => none
        | some false => some (false, g)
        | some true =>
          -- Valid move
          match Board.move_piece g.board cur nxt with
          | none => none
          | some b2 =>
            -- Win condition: King in center squares; black wins
            if piece = 'k' ∧ centerSquares.contains nxt = true then
              some (true, ⟨b2, "BLACK_WON", g.turn⟩)
            -- White wins
            else if piece = 'K' ∧ centerSquares.contains nxt = true then
              some (true, ⟨b2, "WHITE_WON", g.turn⟩)
            else
              -- Win condition: King captured
              let gs1 :=
                if ¬ (Board.king_exists b2 "WHITE" = true) then "BLACK_WON"
                else if ¬ (Board.king_exists b2 "BLACK" = true) then "WHITE_WON"
                else g.game_state
              -- Switch players for next turn
              let t1 :=
                if gs1 = "UNFINISHED" then
                  (if g.turn = "WHITE" then "BLACK" else "WHITE")
                else g.turn
              some (true, ⟨b2, gs1, t1⟩)

/-- Run a list of move requests in order; an uncaught exception (`none`)
aborts the run. -/
def runMoves (g : ChessVar) : List (List Char × List Char) → ChessVar
  | [] => g
  | m :: ms =>
    match ChessVar.make_move g m.1 m.2 with
    | some (_, g2) => runMoves g2 ms
    | none => g

/-! ### Basic facts about square notation -/

/-- Any index pair produced by `notation_to_index` is on the board. -/
theorem n2i_range {s : List Char} {x y : Int}
    (h : Board.notation_to_index s = some (x, y)) :
    0 ≤ x ∧ x < 8 ∧ 0 ≤ y ∧ y < 8 := by
  unfold Board.notation_to_index at h
  split at h
  · exact absurd h (by simp)
  · rename_i hlen
    rcases s with _ | ⟨c, _ | ⟨r, _ | ⟨e, s3⟩⟩⟩
    · simp at hlen
    · simp at hlen
    · dsimp only at h
      split at h
      · exact absurd h (by simp)
      · rename_i hmem
        push_neg at hmem
        obtain ⟨hc, hr⟩ := hmem
        have hc' : c = 'a' ∨ c = 'b' ∨ c = 'c' ∨ c = 'd' ∨ c = 'e'
            ∨ c = 'f' ∨ c = 'g' ∨ c = 'h' := by simpa using hc
        have hr' : r = '1' ∨ r = '2' ∨ r = '3' ∨ r = '4' ∨ r = '5'
            ∨ r = '6' ∨ r = '7' ∨ r = '8' := by simpa using hr
        simp only [Option.some.injEq, Prod.mk.injEq] at h
        obtain ⟨hx, hy⟩ := h
        subst hx; subst hy
        rcases hc' with rfl | rfl | rfl | rfl | rfl | rfl | rfl | rfl <;>
          rcases hr' with rfl | rfl | rfl | rfl | rfl | rfl | rfl | rfl <;>
          decide
    · simp at hlen

/-- A bounds-checked square has a valid index pair. -/
theorem n2i_of_bounds {pos : List Char}
    (h : Board.is_within_bounds pos = true) :
    ∃ x y, Board.notation_to_index pos = some (x, y) := by
  unfold Board.is_within_bounds at h
  simp only [Bool.and_eq_true, beq_iff_eq] at h
  obtain ⟨⟨hl, hc⟩, hr⟩ := h
  refine ⟨8 - (((pos.getD 1 ' ').toNat : Int) - 48),
    ((pos.getD 0 ' ').toNat : Int) - 97, ?_⟩
  unfold Board.notation_to_index
  rw [if_neg (by omega)]
  dsimp only
  rw [if_neg (by push_neg; exact ⟨hc, hr⟩)]

/-- Unfolding `get_piece_at` on a valid index pair. -/
theorem get_piece_at_eq {b : Board} {pos : List Char} {x y : Int}
    (h : Board.notation_to_index pos = some (x, y)) :
    Board.get_piece_at b pos = some (getCell b x y) := by
  unfold Board.get_piece_at
  rw [h]

/-- Unfolding `move_piece` on valid index pairs. -/
theorem move_piece_eq {b : Board} {cur nxt : List Char} {fx fy tx ty : Int}
    (hc : Board.notation_to_index cur = some (fx, fy))
    (hn : Board.notation_to_index nxt = some (tx, ty)) :
    Board.move_piece b cur nxt =
      some (setCell (setCell b tx ty (getCell b fx fy)) fx fy ' ') := by
  unfold Board.move_piece
  rw [hc, hn]

/-! ### Claim C9 -/

/-- Claim C9, counterexample: on the malformed notation "z9" (first
character outside a–h), `notation_to_index` returns the `None` sentinel
and `get_piece_at` unpacks it without a guard, so the call raises a
`TypeError` instead of returning a value (`none` in the embedding). -/
theorem get_piece_at_malformed_faults :
    Board.get_piece_at Board.initial ['z', '9'] = none := by decide

/-- Claim C9, amended: for every input string that passes the bounds
check (exactly two characters, file a–h, rank 1–8), `get_piece_at`
returns a value — a piece character or the `' '` empty marker — on every
board; malformed notation instead faults. -/
theorem get_piece_at_total_on_bounds (b : Board) (pos : List Char)
    (h : Board.is_within_bounds pos = true) :
    ∃ c, Board.get_piece_at b pos = some c := by
  obtain ⟨x, y, hxy⟩ := n2i_of_bounds h
  exact ⟨getCell b x y, get_piece_at_eq hxy⟩

/-- Witness for the amended C9 theorem at a concrete input. -/
theorem get_piece_at_total_on_bounds_witness :
    Board.is_within_bounds ['e', '2'] = true ∧
    ∃ c, Board.get_piece_at Board.initial ['e', '2'] = some c :=
  ⟨by decide, get_piece_at_total_on_bounds Board.initial ['e', '2'] (by decide)⟩

/-! ### Claim C6: an empty origin square is always rejected -/

/-- With an empty origin, the piece character handed to the rules is
`' '`, which falls through every per-type branch of `is_valid_move`:
the self-capture test does not fire (a space is neither upper nor lower
case) and `' '.lower()` matches no piece letter, so the final
`return False` is reached. -/
theorem is_valid_move_space {cur nxt : List Char} {b : Board}
    (hc : Board.is_within_bounds cur = true)
    (hn : Board.is_within_bounds nxt = true) :
    Piece.is_valid_move ' ' cur nxt b = some false := by
  obtain ⟨fx, fy, hfc⟩ := n2i_of_bounds hc
  obtain ⟨tx, ty, hfn⟩ := n2i_of_bounds hn
  unfold Piece.is_valid_move
  rw [hfc, hfn, get_piece_at_eq hfn]
  dsimp only
  rw [if_neg (by simp), if_neg (by decide), if_neg (by decide),
    if_neg (by decide), if_neg (by decide), if_neg (by decide),
    if_neg (by decide)]

/-- Claim C6: in an in-progress game, for in-bounds squares, `make_move`
returns `False` (leaving the state unchanged) whenever the origin square
is empty. -/
theorem empty_origin_rejected (g : ChessVar) (cur nxt : List Char)
    (h1 : g.game_state = "UNFINISHED")
    (h2 : Board.is_within_bounds cur = true)
    (h3 : Board.is_within_bounds nxt = true)
    (h4 : Board.get_piece_at g.board cur = some ' ') :
    ChessVar.make_move g cur nxt = some (false, g) := by
  unfold ChessVar.make_move
  rw [if_neg (by simp [h1]), if_neg (by simp [h2, h3]), h4]
  dsimp only
  rw [if_neg (by simp [charFalsy]),
    if_neg (fun hcontra => by
      rcases hcontra with ⟨-, hl⟩ | ⟨-, hl⟩ <;> exact absurd hl (by decide)),
    is_valid_move_space h2 h3]

/-- Witness for C6: in the initial position a3 is empty, so a3→a4 is
refused and nothing changes. -/
theorem empty_origin_rejected_witness :
    ChessVar.init.game_state = "UNFINISHED" ∧
    Board.is_within_bounds ['a', '3'] = true ∧
    Board.is_within_bounds ['a', '4'] = true ∧
    Board.get_piece_at ChessVar.init.board ['a', '3'] = some ' ' ∧
    ChessVar.make_move ChessVar.init ['a', '3'] ['a', '4'] =
      some (false, ChessVar.init) :=
  ⟨by decide, by decide, by decide, by decide,
    empty_origin_rejected ChessVar.init ['a', '3'] ['a', '4']
      (by decide) (by decide) (by decide) (by decide)⟩

/-! ### Claim C2: a decided game is frozen -/

/-- One step of the freeze: with the game already won, `make_move`
returns `False` and changes nothing. -/
theorem make_move_of_won {g : ChessVar} (cur nxt : List Char)
    (h : g.game_state = "WHITE_WON" ∨ g.game_state = "BLACK_WON") :
    ChessVar.make_move g cur nxt = some (false, g) := by
  unfold ChessVar.make_move
  rcases h with h | h <;> rw [if_pos (by rw [h]; decide)]

/-- Claim C2: once the game state is `WHITE_WON` or `BLACK_WON`, every
later `make_move` call returns `False` without mutating board, turn, or
state, and `get_game_state` keeps answering the same value after any
sequence of further calls. -/
theorem game_state_monotone (g : ChessVar)
    (h : g.game_state = "WHITE_WON" ∨ g.game_state = "BLACK_WON") :
    (∀ cur nxt, ChessVar.make_move g cur nxt = some (false, g)) ∧
    (∀ ms, runMoves g ms = g) ∧
    (∀ ms, ChessVar.get_game_state (runMoves g ms) =
      ChessVar.get_game_state g) := by
  have hrun : ∀ ms, runMoves g ms = g := by
    intro ms
    induction ms with
    | nil => rfl
    | cons m ms ih =>
      rw [runMoves, make_move_of_won m.1 m.2 h]
      exact ih
  exact ⟨fun cur nxt => make_move_of_won cur nxt h,
    hrun, fun ms => by rw [hrun ms]⟩

/-- Witness for C2 on a concrete finished game. -/
theorem game_state_monotone_witness :
    ((⟨Board.initial, "WHITE_WON", "WHITE"⟩ : ChessVar).game_state = "WHITE_WON" ∨
      (⟨Board.initial, "WHITE_WON", "WHITE"⟩ : ChessVar).game_state = "BLACK_WON") ∧
    ChessVar.make_move ⟨Board.initial, "WHITE_WON", "WHITE"⟩
      ['e', '2'] ['e', '4'] =
      some (false, ⟨Board.initial, "WHITE_WON", "WHITE"⟩) ∧
    runMoves ⟨Board.initial, "WHITE_WON", "WHITE"⟩
      [(['e', '2'], ['e', '4']), (['e', '7'], ['e', '5'])] =
      ⟨Board.initial, "WHITE_WON", "WHITE"⟩ :=
  ⟨Or.inl rfl,
    (game_state_monotone _ (Or.inl rfl)).1 ['e', '2'] ['e', '4'],
    (game_state_monotone _ (Or.inl rfl)).2.1 _⟩

/-! ### Claim C5: turn ownership and toggling -/

/-- Claim C5: a new game starts with white to move, and a `make_move`
call replaces the turn by its toggle exactly when it returns `True` and
the resulting game state is still `UNFINISHED`; a failed move or a
game-ending move leaves the turn unchanged. -/
theorem turn_toggle :
    ChessVar.init.turn = "WHITE" ∧
    ∀ (g : ChessVar) (cur nxt : List Char) (r : Bool) (g2 : ChessVar),
      ChessVar.make_move g cur nxt = some (r, g2) →
      ((r = true ∧ g2.game_state = "UNFINISHED") →
        g2.turn = (if g.turn = "WHITE" then "BLACK" else "WHITE")) ∧
      (¬(r = true ∧ g2.game_state = "UNFINISHED") → g2.turn = g.turn) := by
  refine ⟨rfl, fun g cur nxt r g2 h => ?_⟩
  unfold ChessVar.make_move at h
  split at h
  · -- game already over
    simp only [Option.some.injEq, Prod.mk.injEq] at h
    obtain ⟨hr, hg⟩ := h
    subst hr; subst hg
    exact ⟨fun hx => absurd hx.1 (by simp), fun _ => rfl⟩
  · split at h
    · -- out of bounds
      simp only [Option.some.injEq, Prod.mk.injEq] at h
      obtain ⟨hr, hg⟩ := h
      subst hr; subst hg
      exact ⟨fun hx => absurd hx.1 (by simp), fun _ => rfl⟩
    · split at h
      · -- get_piece_at faulted: no result at all
        exact absurd h (by simp)
      · split at h
        · -- `if not piece` (never fires, but the branch exists)
          simp only [Option.some.injEq, Prod.mk.injEq] at h
          obtain ⟨hr, hg⟩ := h
          subst hr; subst hg
          exact ⟨fun hx => absurd hx.1 (by simp), fun _ => rfl⟩
        · split at h
          · -- not this player's turn
            simp only [Option.some.injEq, Prod.mk.injEq] at h
            obtain ⟨hr, hg⟩ := h
            subst hr; subst hg
            exact ⟨fun hx => absurd hx.1 (by simp), fun _ => rfl⟩
          · split at h
            · -- is_valid_move faulted
              exact absurd h (by simp)
            · -- is_valid_move returned False
              simp only [Option.some.injEq, Prod.mk.injEq] at h
              obtain ⟨hr, hg⟩ := h
              subst hr; subst hg
              exact ⟨fun hx => absurd hx.1 (by simp), fun _ => rfl⟩
            · split at h
              · -- move_piece faulted
                exact absurd h (by simp)
              · -- the move was performed
                split at h
                · -- black king reached the center
                  simp only [Option.some.injEq, Prod.mk.injEq] at h
                  obtain ⟨hr, hg⟩ := h
                  subst hr; subst hg
                  exact ⟨fun hx => absurd hx.2 (by simp),
                    fun _ => rfl⟩
                · split at h
                  · -- white king reached the center
                    simp only [Option.some.injEq, Prod.mk.injEq] at h
                    obtain ⟨hr, hg⟩ := h
                    subst hr; subst hg
                    exact ⟨fun hx => absurd hx.2 (by simp),
                      fun _ => rfl⟩
                  · -- king-capture check, then the turn switch
                    simp only [Option.some.injEq, Prod.mk.injEq] at h
                    obtain ⟨hr, hg⟩ := h
                    subst hr; subst hg
                    constructor
                    · intro hx
                      have hgs := hx.2
                      simp only at hgs ⊢
                      rw [if_pos hgs]
                    · intro hx
                      push_neg at hx
                      have hgs := hx rfl
                      simp only at hgs ⊢
                      rw [if_neg hgs]

/-- The game after white plays e2→e4 from the initial position. -/
def gameAfterE2E4 : ChessVar :=
  ⟨[['r', 'n', 'b', 'q', 'k', 'b', 'n', 'r'],
    ['p', 'p', 'p', 'p', 'p', 'p', 'p', 'p'],
    [' ', ' ', ' ', ' ', ' ', ' ', ' ', ' '],
    [' ', ' ', ' ', ' ', ' ', ' ', ' ', ' '],
    [' ', ' ', ' ', ' ', 'P', ' ', ' ', ' '],
    [' ', ' ', ' ', ' ', ' ', ' ', ' ', ' '],
    ['P', 'P', 'P', 'P', ' ', 'P', 'P', 'P'],
    ['R', 'N', 'B', 'Q', 'K', 'B', 'N', 'R']],
   "UNFINISHED", "BLACK"⟩

/-- Witness for C5: e2→e4 from the initial position succeeds, keeps the
game in progress, and flips the turn to black. -/
theorem turn_toggle_witness :
    ChessVar.make_move ChessVar.init ['e', '2'] ['e', '4'] =
      some (true, gameAfterE2E4) ∧
    gameAfterE2E4.turn =
      (if ChessVar.init.turn = "WHITE" then "BLACK" else "WHITE") :=
  ⟨by decide,
    (turn_toggle.2 ChessVar.init ['e', '2'] ['e', '4'] true gameAfterE2E4
      (by decide)).1 ⟨rfl, by decide⟩⟩

/-! ### Claim C3: king-to-center wins immediately -/

/-- Claim C3: when a move passes every legality check, the moved piece is
a king, and the destination is one of d4, e4, d5, e5, `make_move` sets
the game state to the moving side's win and returns `True` — on any
board, so the result does not consult the king-capture scan at all (the
center check is evaluated first and short-circuits it, even if the move
also captured the opposing king).  The turn is left unchanged. -/
theorem king_to_center_win (g : ChessVar) (cur nxt : List Char)
    (piece : Char) (b2 : Board)
    (h1 : g.game_state = "UNFINISHED")
    (h2 : Board.is_within_bounds cur = true)
    (h3 : Board.is_within_bounds nxt = true)
    (h4 : Board.get_piece_at g.board cur = some piece)
    (h5 : ¬((g.turn = "WHITE" ∧ piece.isLower = true)
        ∨ (g.turn = "BLACK" ∧ piece.isUpper = true)))
    (h6 : Piece.is_valid_move piece cur nxt g.board = some true)
    (h7 : piece = 'K' ∨ piece = 'k')
    (h8 : centerSquares.contains nxt = true)
    (h9 : Board.move_piece g.board cur nxt = some b2) :
    ChessVar.make_move g cur nxt =
      some (true, ⟨b2,
        if piece = 'K' then "WHITE_WON" else "BLACK_WON", g.turn⟩) := by
  unfold ChessVar.make_move
  rw [if_neg (by simp [h1]), if_neg (by simp [h2, h3]), h4]
  dsimp only
  rw [if_neg (by simp [charFalsy]), if_neg h5, h6]
  dsimp only
  rw [h9]
  dsimp only
  rcases h7 with rfl | rfl
  · rw [if_neg (by rintro ⟨hk, -⟩; exact absurd hk (by decide)),
      if_pos ⟨rfl, h8⟩, if_pos rfl]
  · rw [if_pos ⟨rfl, h8⟩, if_neg (by decide)]

/-- The board used for the C3 witness: lone kings, white king on e3. -/
def centerBoardW : Board :=
  [[' ', ' ', ' ', ' ', 'k', ' ', ' ', ' '],
   [' ', ' ', ' ', ' ', ' ', ' ', ' ', ' '],
   [' ', ' ', ' ', ' ', ' ', ' ', ' ', ' '],
   [' ', ' ', ' ', ' ', ' ', ' ', ' ', ' '],
   [' ', ' ', ' ', ' ', ' ', ' ', ' ', ' '],
   [' ', ' ', ' ', ' ', 'K', ' ', ' ', ' '],
   [' ', ' ', ' ', ' ', ' ', ' ', ' ', ' '],
   [' ', ' ', ' ', ' ', ' ', ' ', ' ', ' ']]

/-- Witness for C3: the white king steps from e3 onto the center square
e4 and the game state becomes `WHITE_WON` with the move reported legal. -/
theorem king_to_center_win_witness :
    (⟨centerBoardW, "UNFINISHED", "WHITE"⟩ : ChessVar).game_state =
      "UNFINISHED" ∧
    ChessVar.make_move ⟨centerBoardW, "UNFINISHED", "WHITE"⟩
      ['e', '3'] ['e', '4'] =
      some (true, ⟨[[' ', ' ', ' ', ' ', 'k', ' ', ' ', ' '],
        [' ', ' ', ' ', ' ', ' ', ' ', ' ', ' '],
        [' ', ' ', ' ', ' ', ' ', ' ', ' ', ' '],
        [' ', ' ', ' ', ' ', ' ', ' ', ' ', ' '],
        [' ', ' ', ' ', ' ', 'K', ' ', ' ', ' '],
        [' ', ' ', ' ', ' ', ' ', ' ', ' ', ' '],
        [' ', ' ', ' ', ' ', ' ', ' ', ' ', ' '],
        [' ', ' ', ' ', ' ', ' ', ' ', ' ', ' ']],
        if ('K' : Char) = 'K' then "WHITE_WON" else "BLACK_WON",
        "WHITE"⟩) :=
  ⟨rfl,
    king_to_center_win ⟨centerBoardW, "UNFINISHED", "WHITE"⟩
      ['e', '3'] ['e', '4'] 'K' _
      rfl (by decide) (by decide) (by decide)
      (by rintro (⟨-, hl⟩ | ⟨hb, -⟩)
          · exact absurd hl (by decide)
          · exact absurd hb (by decide))
      (by decide) (Or.inl rfl) (by decide) (by decide)⟩

/-! ### Claim C4: king-capture win check after every other legal move -/

/-- Claim C4: after a legal move that is not a king-to-center win,
`make_move` returns `True` and sets the game state by scanning the
post-move board: `BLACK_WON` if no white king remains, else `WHITE_WON`
if no black king remains, else it stays `UNFINISHED` (and only in that
last case is the turn toggled).  In particular a legal non-king move
that captures the opposing king sets the capturing side's win state. -/
theorem king_capture_win (g : ChessVar) (cur nxt : List Char)
    (piece : Char) (b2 : Board)
    (h1 : g.game_state = "UNFINISHED")
    (h2 : Board.is_within_bounds cur = true)
    (h3 : Board.is_within_bounds nxt = true)
    (h4 : Board.get_piece_at g.board cur = some piece)
    (h5 : ¬((g.turn = "WHITE" ∧ piece.isLower = true)
        ∨ (g.turn = "BLACK" ∧ piece.isUpper = true)))
    (h6 : Piece.is_valid_move piece cur nxt g.board = some true)
    (h7 : ¬(piece = 'k' ∧ centerSquares.contains nxt = true))
    (h8 : ¬(piece = 'K' ∧ centerSquares.contains nxt = true))
    (h9 : Board.move_piece g.board cur nxt = some b2) :
    ChessVar.make_move g cur nxt =
      some (true, ⟨b2,
        if ¬(Board.king_exists b2 "WHITE" = true) then "BLACK_WON"
        else if ¬(Board.king_exists b2 "BLACK" = true) then "WHITE_WON"
        else "UNFINISHED",
        if (if ¬(Board.king_exists b2 "WHITE" = true) then "BLACK_WON"
            else if ¬(Board.king_exists b2 "BLACK" = true) then "WHITE_WON"
            else "UNFINISHED") = "UNFINISHED" then
          (if g.turn = "WHITE" then "BLACK" else "WHITE")
        else g.turn⟩) := by
  unfold ChessVar.make_move
  rw [if_neg (by simp [h1]), if_neg (by simp [h2, h3]), h4]
  dsimp only
  rw [if_neg (by simp [charFalsy]), if_neg h5, h6]
  dsimp only
  rw [h9]
  dsimp only
  rw [if_neg h7, if_neg h8, h1]

/-- The board used for the C4 witness: white rook a1, kings on a8/e1. -/
def rookCaptureBoard : Board :=
  [['k', ' ', ' ', ' ', ' ', ' ', ' ', ' '],
   [' ', ' ', ' ', ' ', ' ', ' ', ' ', ' '],
   [' ', ' ', ' ', ' ', ' ', ' ', ' ', ' '],
   [' ', ' ', ' ', ' ', ' ', ' ', ' ', ' '],
   [' ', ' ', ' ', ' ', ' ', ' ', ' ', ' '],
   [' ', ' ', ' ', ' ', ' ', ' ', ' ', ' '],
   [' ', ' ', ' ', ' ', ' ', ' ', ' ', ' '],
   ['R', ' ', ' ', ' ', 'K', ' ', ' ', ' ']]

/-- Witness for C4: the white rook slides a1→a8 and captures the black
king; the game state becomes `WHITE_WON` and the turn stays with white. -/
theorem king_capture_win_witness :
    ChessVar.make_move ⟨rookCaptureBoard, "UNFINISHED", "WHITE"⟩
      ['a', '1'] ['a', '8'] =
      some (true, ⟨[['R', ' ', ' ', ' ', ' ', ' ', ' ', ' '],
        [' ', ' ', ' ', ' ', ' ', ' ', ' ', ' '],
        [' ', ' ', ' ', ' ', ' ', ' ', ' ', ' '],
        [' ', ' ', ' ', ' ', ' ', ' ', ' ', ' '],
        [' ', ' ', ' ', ' ', ' ', ' ', ' ', ' '],
        [' ', ' ', ' ', ' ', ' ', ' ', ' ', ' '],
        [' ', ' ', ' ', ' ', ' ', ' ', ' ', ' '],
        [' ', ' ', ' ', ' ', 'K', ' ', ' ', ' ']],
        if ¬(Board.king_exists ([['R', ' ', ' ', ' ', ' ', ' ', ' ', ' '],
          [' ', ' ', ' ', ' ', ' ', ' ', ' ', ' '],
          [' ', ' ', ' ', ' ', ' ', ' ', ' ', ' '],
          [' ', ' ', ' ', ' ', ' ', ' ', ' ', ' '],
          [' ', ' ', ' ', ' ', ' ', ' ', ' ', ' '],
          [' ', ' ', ' ', ' ', ' ', ' ', ' ', ' '],
          [' ', ' ', ' ', ' ', ' ', ' ', ' ', ' '],
          [' ', ' ', ' ', ' ', 'K', ' ', ' ', ' ']] : Board) "WHITE" = true)
        then "BLACK_WON"
        else if ¬(Board.king_exists ([['R', ' ', ' ', ' ', ' ', ' ', ' ', ' '],
          [' ', ' ', ' ', ' ', ' ', ' ', ' ', ' '],
          [' ', ' ', ' ', ' ', ' ', ' ', ' ', ' '],
          [' ', ' ', ' ', ' ', ' ', ' ', ' ', ' '],
          [' ', ' ', ' ', ' ', ' ', ' ', ' ', ' '],
          [' ', ' ', ' ', ' ', ' ', ' ', ' ', ' '],
          [' ', ' ', ' ', ' ', ' ', ' ', ' ', ' '],
          [' ', ' ', ' ', ' ', 'K', ' ', ' ', ' ']] : Board) "BLACK" = true)
        then "WHITE_WON" else "UNFINISHED",
        if (if ¬(Board.king_exists ([['R', ' ', ' ', ' ', ' ', ' ', ' ', ' '],
          [' ', ' ', ' ', ' ', ' ', ' ', ' ', ' '],
          [' ', ' ', ' ', ' ', ' ', ' ', ' ', ' '],
          [' ', ' ', ' ', ' ', ' ', ' ', ' ', ' '],
          [' ', ' ', ' ', ' ', ' ', ' ', ' ', ' '],
          [' ', ' ', ' ', ' ', ' ', ' ', ' ', ' '],
          [' ', ' ', ' ', ' ', ' ', ' ', ' ', ' '],
          [' ', ' ', ' ', ' ', 'K', ' ', ' ', ' ']] : Board) "WHITE" = true)
          then "BLACK_WON"
          else if ¬(Board.king_exists ([['R', ' ', ' ', ' ', ' ', ' ', ' ', ' '],
            [' ', ' ', ' ', ' ', ' ', ' ', ' ', ' '],
            [' ', ' ', ' ', ' ', ' ', ' ', ' ', ' '],
            [' ', ' ', ' ', ' ', ' ', ' ', ' ', ' '],
            [' ', ' ', ' ', ' ', ' ', ' ', ' ', ' '],
            [' ', ' ', ' ', ' ', ' ', ' ', ' ', ' '],
            [' ', ' ', ' ', ' ', ' ', ' ', ' ', ' '],
            [' ', ' ', ' ', ' ', 'K', ' ', ' ', ' ']] : Board) "BLACK" = true)
          then "WHITE_WON" else "UNFINISHED") = "UNFINISHED"
        then (if ("WHITE" : String) = "WHITE" then "BLACK" else "WHITE")
        else "WHITE"⟩) :=
  king_capture_win ⟨rookCaptureBoard, "UNFINISHED", "WHITE"⟩
    ['a', '1'] ['a', '8'] 'R' _
    rfl (by decide) (by decide) (by decide)
    (by rintro (⟨-, hl⟩ | ⟨hb, -⟩)
        · exact absurd hl (by decide)
        · exact absurd hb (by decide))
    (by decide)
    (by rintro ⟨hk, -⟩; exact absurd hk (by decide))
    (by rintro ⟨hk, -⟩; exact absurd hk (by decide))
    (by decide)

/-! ### The path-clearance loop -/

/-- For an on-board index pair, the reconstructed square name
`chr(y + ord('a')) + str(8 - x)` is produced without fault and querying
it returns exactly the addressed cell. -/
theorem squareOf_get (b : Board) {x y : Int}
    (hx0 : 0 ≤ x) (hx : x < 8) (hy0 : 0 ≤ y) (hy : y < 8) :
    ∃ sq, squareOf x y = some sq ∧
      Board.get_piece_at b sq = some (getCell b x y) := by
  interval_cases x <;> interval_cases y <;> exact ⟨_, rfl, rfl⟩

/-- The cells the loop still has to inspect, counted down from the
current position: square `j` (for `1 ≤ j ≤ k`) is `j` steps short of the
destination. -/
def allEmptyDown (b : Board) (tx ty sx sy : Int) : Nat → Bool
  | 0 => true
  | k + 1 =>
    (getCell b (tx - (((k + 1 : Nat)) : Int) * sx)
      (ty - (((k + 1 : Nat)) : Int) * sy) == ' ')
      && allEmptyDown b tx ty sx sy k

/-- Exact description of the loop of `_path_is_clear`: started `k` steps
short of the destination, with every remaining pre-destination square on
the board, it terminates and answers whether all of them are empty. -/
theorem pathLoop_eq (b : Board) (tx ty sx sy : Int) :
    ∀ (k fuel : Nat) (x y : Int),
      (k ≠ 0 → ¬(sx = 0 ∧ sy = 0)) →
      x = tx - (k : Int) * sx → y = ty - (k : Int) * sy →
      (∀ j : Nat, 1 ≤ j → j ≤ k →
        0 ≤ tx - (j : Int) * sx ∧ tx - (j : Int) * sx < 8 ∧
        0 ≤ ty - (j : Int) * sy ∧ ty - (j : Int) * sy < 8) →
      k < fuel →
      pathLoop b tx ty sx sy fuel x y =
        some (allEmptyDown b tx ty sx sy k) := by
  intro k
  induction k with
  | zero =>
    intro fuel x y _ hx hy _ hf
    subst hx; subst hy
    cases fuel with
    | zero => omega
    | succ f =>
      rw [pathLoop, if_pos ⟨by push_cast; ring, by push_cast; ring⟩]
      rfl
  | succ k ih =>
    intro fuel x y hks hx hy hj hf
    cases fuel with
    | zero => omega
    | succ f =>
      have hstep : ¬(sx = 0 ∧ sy = 0) := hks (by omega)
      have hne : ¬(x = tx ∧ y = ty) := by
        rintro ⟨h1, h2⟩
        rw [hx] at h1
        rw [hy] at h2
        have h1' : ((k + 1 : Nat) : Int) * sx = 0 := by linarith
        have h2' : ((k + 1 : Nat) : Int) * sy = 0 := by linarith
        refine hstep ⟨?_, ?_⟩
        · rcases mul_eq_zero.mp h1' with h | h
          · exact absurd h (by push_cast; omega)
          · exact h
        · rcases mul_eq_zero.mp h2' with h | h
          · exact absurd h (by push_cast; omega)
          · exact h
      have hb := hj (k + 1) (by omega) (by omega)
      rw [← hx, ← hy] at hb
      obtain ⟨sq, hsq, hget⟩ := squareOf_get b hb.1 hb.2.1 hb.2.2.1 hb.2.2.2
      rw [pathLoop, if_neg hne, hsq]
      dsimp only
      rw [hget]
      dsimp only
      by_cases hcc : getCell b x y = ' '
      · rw [if_neg (not_not_intro hcc)]
        have hrec := ih f (x + sx) (y + sy) (fun _ => hstep)
          (by rw [hx]; push_cast; ring) (by rw [hy]; push_cast; ring)
          (fun j h1 h2 => hj j h1 (by omega)) (by omega)
        rw [hrec, allEmptyDown, ← hx, ← hy, hcc]
        simp
      · rw [if_pos hcc]
        rw [allEmptyDown, ← hx, ← hy]
        simp [hcc]

/-- Identity `d = |d| * step(d)` for the source's step function. -/
theorem natAbs_mul_stepOf (d : Int) : (d.natAbs : Int) * stepOf d = d := by
  unfold stepOf
  split
  · omega
  · split <;> omega

/-- The step is always 0, 1 or −1. -/
theorem stepOf_cases (d : Int) : stepOf d = 0 ∨ stepOf d = 1 ∨ stepOf d = -1 := by
  unfold stepOf
  split
  · exact Or.inl rfl
  · split
    · exact Or.inr (Or.inl rfl)
    · exact Or.inr (Or.inr rfl)


/-- Exact description of `_path_is_clear` on any pair of on-board
squares that share a rank, a file, or a diagonal: it terminates and
answers whether every square strictly between origin and destination is
empty. -/
theorem path_is_clear_eq (b : Board) {fx fy tx ty : Int}
    (hfx0 : 0 ≤ fx) (hfx : fx < 8) (hfy0 : 0 ≤ fy) (hfy : fy < 8)
    (htx0 : 0 ≤ tx) (htx : tx < 8) (hty0 : 0 ≤ ty) (hty : ty < 8)
    (halign : fx = tx ∨ fy = ty ∨ (tx - fx).natAbs = (ty - fy).natAbs) :
    Piece.path_is_clear fx fy tx ty b =
      some (allEmptyDown b tx ty (stepOf (tx - fx)) (stepOf (ty - fy))
        (max (tx - fx).natAbs (ty - fy).natAbs - 1)) := by
  have hdx : tx - fx =
      ((max (tx - fx).natAbs (ty - fy).natAbs : Nat) : Int) *
        stepOf (tx - fx) := by
    rcases halign with h | h | h
    · have hs0 : stepOf (tx - fx) = 0 := by
        unfold stepOf; rw [if_pos (by omega)]
      rw [hs0]; omega
    · have hmx : max (tx - fx).natAbs (ty - fy).natAbs =
          (tx - fx).natAbs := by omega
      rw [hmx, natAbs_mul_stepOf]
    · have hmx : max (tx - fx).natAbs (ty - fy).natAbs =
          (tx - fx).natAbs := by omega
      rw [hmx, natAbs_mul_stepOf]
  have hdy : ty - fy =
      ((max (tx - fx).natAbs (ty - fy).natAbs : Nat) : Int) *
        stepOf (ty - fy) := by
    rcases halign with h | h | h
    · have hmx : max (tx - fx).natAbs (ty - fy).natAbs =
          (ty - fy).natAbs := by omega
      rw [hmx, natAbs_mul_stepOf]
    · have hs0 : stepOf (ty - fy) = 0 := by
        unfold stepOf; rw [if_pos (by omega)]
      rw [hs0]; omega
    · have hmx : max (tx - fx).natAbs (ty - fy).natAbs =
          (ty - fy).natAbs := by omega
      rw [hmx, natAbs_mul_stepOf]
  unfold Piece.path_is_clear
  dsimp only
  rcases Nat.eq_zero_or_pos (max (tx - fx).natAbs (ty - fy).natAbs)
    with hn0 | hn1
  · have hsx0 : stepOf (tx - fx) = 0 := by
      unfold stepOf; rw [if_pos (by omega)]
    have hsy0 : stepOf (ty - fy) = 0 := by
      unfold stepOf; rw [if_pos (by omega)]
    rw [hn0]
    exact pathLoop_eq b tx ty (stepOf (tx - fx)) (stepOf (ty - fy)) 0 8
      (fx + stepOf (tx - fx)) (fy + stepOf (ty - fy))
      (fun h => absurd rfl h)
      (by rw [hsx0]; push_cast; omega)
      (by rw [hsy0]; push_cast; omega)
      (fun j h1 h2 => by omega)
      (by omega)
  · exact pathLoop_eq b tx ty (stepOf (tx - fx)) (stepOf (ty - fy))
      (max (tx - fx).natAbs (ty - fy).natAbs - 1) 8
      (fx + stepOf (tx - fx)) (fy + stepOf (ty - fy))
      (fun _ => by
        rintro ⟨e1, e2⟩
        rw [e1, mul_zero] at hdx
        rw [e2, mul_zero] at hdy
        omega)
      (by rw [Nat.cast_sub hn1, Nat.cast_one]; linear_combination -hdx)
      (by rw [Nat.cast_sub hn1, Nat.cast_one]; linear_combination -hdy)
      (fun j h1 h2 => by
        rcases stepOf_cases (tx - fx) with e | e | e <;>
          rcases stepOf_cases (ty - fy) with e2 | e2 | e2 <;>
          rw [e] at hdx ⊢ <;> rw [e2] at hdy ⊢ <;>
          simp only [mul_zero, mul_one, mul_neg_one, sub_zero] at hdx hdy ⊢ <;>
          omega)
      (by omega)

/-! ### Claim C10: termination of the path walk -/

/-- Claim C10: whenever origin and destination are board squares sharing
a rank, a file, or a diagonal — the only configurations under which the
rook, bishop and queen rules invoke it — `_path_is_clear` terminates and
returns a boolean, on every board. -/
theorem path_is_clear_total (b : Board) {fx fy tx ty : Int}
    (hfx0 : 0 ≤ fx) (hfx : fx < 8) (hfy0 : 0 ≤ fy) (hfy : fy < 8)
    (htx0 : 0 ≤ tx) (htx : tx < 8) (hty0 : 0 ≤ ty) (hty : ty < 8)
    (halign : fx = tx ∨ fy = ty ∨ (tx - fx).natAbs = (ty - fy).natAbs) :
    ∃ r, Piece.path_is_clear fx fy tx ty b = some r :=
  ⟨_, path_is_clear_eq b hfx0 hfx hfy0 hfy htx0 htx hty0 hty halign⟩

/-- Witness for C10 on the initial board, a1→a3 (same file). -/
theorem path_is_clear_total_witness :
    ((0 : Int) ≤ 7 ∧ (7 : Int) < 8 ∧ ((7 : Int) = 5 ∨ (0 : Int) = 0 ∨
      ((5 : Int) - 7).natAbs = ((0 : Int) - 0).natAbs)) ∧
    ∃ r, Piece.path_is_clear 7 0 5 0 Board.initial = some r :=
  ⟨⟨by omega, by omega, Or.inr (Or.inl rfl)⟩,
    @path_is_clear_total Board.initial 7 0 5 0
      (by omega) (by omega) (by omega) (by omega)
      (by omega) (by omega) (by omega) (by omega)
      (Or.inr (Or.inl rfl))⟩

/-! ### Claim C7: sliding moves are blocked by occupied interior squares -/

/-- Unfolded, `allEmptyDown` answers the emptiness of every square 1…k steps short
of the destination. -/
theorem allEmptyDown_eq_true_iff (b : Board) (tx ty sx sy : Int) :
    ∀ k : Nat, (allEmptyDown b tx ty sx sy k = true ↔
      ∀ j : Nat, 1 ≤ j → j ≤ k →
        getCell b (tx - (j : Int) * sx) (ty - (j : Int) * sy) = ' ') := by
  intro k
  induction k with
  | zero =>
    constructor
    · intro _ j h1 h2
      omega
    · intro _
      rfl
  | succ k ih =>
    rw [allEmptyDown, Bool.and_eq_true, beq_iff_eq, ih]
    constructor
    · rintro ⟨hhead, htail⟩ j h1 h2
      rcases Nat.lt_or_ge j (k + 1) with hj | hj
      · exact htail j h1 (by omega)
      · have : j = k + 1 := by omega
        subst this
        exact hhead
    · intro h
      exact ⟨h (k + 1) (by omega) (by omega),
        fun j h1 h2 => h j h1 (by omega)⟩

/-- On an aligned pair, the displacement factors through the step. -/
theorem align_decomp {fx fy tx ty : Int}
    (halign : fx = tx ∨ fy = ty ∨ (tx - fx).natAbs = (ty - fy).natAbs) :
    tx - fx = ((max (tx - fx).natAbs (ty - fy).natAbs : Nat) : Int) *
        stepOf (tx - fx) ∧
    ty - fy = ((max (tx - fx).natAbs (ty - fy).natAbs : Nat) : Int) *
        stepOf (ty - fy) := by
  constructor
  · rcases halign with h | h | h
    · have hs0 : stepOf (tx - fx) = 0 := by
        unfold stepOf; rw [if_pos (by omega)]
      rw [hs0]; omega
    · have hmx : max (tx - fx).natAbs (ty - fy).natAbs =
          (tx - fx).natAbs := by omega
      rw [hmx, natAbs_mul_stepOf]
    · have hmx : max (tx - fx).natAbs (ty - fy).natAbs =
          (tx - fx).natAbs := by omega
      rw [hmx, natAbs_mul_stepOf]
  · rcases halign with h | h | h
    · have hmx : max (tx - fx).natAbs (ty - fy).natAbs =
          (ty - fy).natAbs := by omega
      rw [hmx, natAbs_mul_stepOf]
    · have hs0 : stepOf (ty - fy) = 0 := by
        unfold stepOf; rw [if_pos (by omega)]
      rw [hs0]; omega
    · have hmx : max (tx - fx).natAbs (ty - fy).natAbs =
          (ty - fy).natAbs := by omega
      rw [hmx, natAbs_mul_stepOf]

/-- Counting strictly-between squares from the destination or from the
origin visits the same set of cells. -/
theorem between_reindex {b : Board} {fx fy tx ty sx sy : Int} {n : Nat}
    (hdx : tx - fx = (n : Int) * sx) (hdy : ty - fy = (n : Int) * sy) :
    (∀ j : Nat, 1 ≤ j → j ≤ n - 1 →
      getCell b (tx - (j : Int) * sx) (ty - (j : Int) * sy) = ' ') ↔
    (∀ i : Nat, 1 ≤ i → i < n →
      getCell b (fx + (i : Int) * sx) (fy + (i : Int) * sy) = ' ') := by
  constructor
  · intro h i h1 h2
    have hcx : fx + (i : Int) * sx = tx - ((n - i : Nat) : Int) * sx := by
      rw [Nat.cast_sub (by omega)]
      linear_combination -hdx
    have hcy : fy + (i : Int) * sy = ty - ((n - i : Nat) : Int) * sy := by
      rw [Nat.cast_sub (by omega)]
      linear_combination -hdy
    rw [hcx, hcy]
    exact h (n - i) (by omega) (by omega)
  · intro h j h1 h2
    have hn2 : 2 ≤ n := by omega
    have hcx : tx - (j : Int) * sx = fx + ((n - j : Nat) : Int) * sx := by
      rw [Nat.cast_sub (by omega)]
      linear_combination hdx
    have hcy : ty - (j : Int) * sy = fy + ((n - j : Nat) : Int) * sy := by
      rw [Nat.cast_sub (by omega)]
      linear_combination hdy
    rw [hcx, hcy]
    exact h (n - j) (by omega) (by omega)

/-- Claim C7: for a rook, bishop or queen move whose geometric pattern
matches, the path test succeeds exactly when every square strictly
between origin and destination (origin and destination excluded) is
empty; and whenever some strictly-between square is occupied — by either
color — the move is judged illegal. -/
theorem sliding_blocked_illegal (piece : Char) (cur nxt : List Char)
    (b : Board) {fx fy tx ty : Int}
    (hc : Board.notation_to_index cur = some (fx, fy))
    (hn : Board.notation_to_index nxt = some (tx, ty))
    (hpat : (piece.toLower = 'r' ∧ (fx = tx ∨ fy = ty))
        ∨ (piece.toLower = 'b' ∧ (tx - fx).natAbs = (ty - fy).natAbs)
        ∨ (piece.toLower = 'q' ∧
            (fx = tx ∨ fy = ty ∨ (tx - fx).natAbs = (ty - fy).natAbs))) :
    (Piece.path_is_clear fx fy tx ty b = some true ↔
      ∀ i : Nat, 1 ≤ i → i < max (tx - fx).natAbs (ty - fy).natAbs →
        getCell b (fx + (i : Int) * stepOf (tx - fx))
          (fy + (i : Int) * stepOf (ty - fy)) = ' ') ∧
    ((∃ i : Nat, 1 ≤ i ∧ i < max (tx - fx).natAbs (ty - fy).natAbs ∧
        getCell b (fx + (i : Int) * stepOf (tx - fx))
          (fy + (i : Int) * stepOf (ty - fy)) ≠ ' ') →
      Piece.is_valid_move piece cur nxt b = some false) := by
  obtain ⟨hfx0, hfx, hfy0, hfy⟩ := n2i_range hc
  obtain ⟨htx0, htx, hty0, hty⟩ := n2i_range hn
  have halign : fx = tx ∨ fy = ty ∨ (tx - fx).natAbs = (ty - fy).natAbs := by
    rcases hpat with ⟨-, h | h⟩ | ⟨-, h⟩ | ⟨-, h⟩
    · exact Or.inl h
    · exact Or.inr (Or.inl h)
    · exact Or.inr (Or.inr h)
    · exact h
  obtain ⟨hdx, hdy⟩ := align_decomp halign
  have hpeq := path_is_clear_eq b hfx0 hfx hfy0 hfy htx0 htx hty0 hty halign
  have hiff : Piece.path_is_clear fx fy tx ty b = some true ↔
      ∀ i : Nat, 1 ≤ i → i < max (tx - fx).natAbs (ty - fy).natAbs →
        getCell b (fx + (i : Int) * stepOf (tx - fx))
          (fy + (i : Int) * stepOf (ty - fy)) = ' ' := by
    rw [hpeq]
    simp only [Option.some.injEq]
    exact (allEmptyDown_eq_true_iff b tx ty _ _ _).trans
      (between_reindex hdx hdy)
  refine ⟨hiff, fun hex => ?_⟩
  have hfalse : Piece.path_is_clear fx fy tx ty b = some false := by
    rcases Bool.eq_false_or_eq_true
        (allEmptyDown b tx ty (stepOf (tx - fx)) (stepOf (ty - fy))
          (max (tx - fx).natAbs (ty - fy).natAbs - 1)) with hb | hb
    · obtain ⟨i, hi1, hi2, hi3⟩ := hex
      exact absurd
        (((allEmptyDown_eq_true_iff b tx ty _ _ _).mp hb
          |> (between_reindex hdx hdy).mp) i hi1 hi2) hi3
    · rw [hpeq, hb]
  unfold Piece.is_valid_move
  rw [hc, hn, get_piece_at_eq hn]
  dsimp only
  by_cases hsc : getCell b tx ty ≠ ' '
      ∧ ((piece.isUpper = true ∧ (getCell b tx ty).isUpper = true)
          ∨ (piece.isLower = true ∧ (getCell b tx ty).isLower = true))
  · rw [if_pos hsc]
  · rw [if_neg hsc]
    rcases hpat with ⟨hty', hp2⟩ | ⟨hty', hp2⟩ | ⟨hty', hp2⟩
    · rw [hty', if_neg (by decide), if_pos rfl, if_pos hp2]
      exact hfalse
    · rw [hty', if_neg (by decide), if_neg (by decide), if_pos rfl,
        if_pos hp2]
      exact hfalse
    · rw [hty', if_neg (by decide), if_neg (by decide), if_neg (by decide),
        if_neg (by decide), if_pos rfl, if_pos hp2]
      exact hfalse

/-- Witness for C7: on the initial board the rook move a1→a3 matches the
rook pattern but a2 (one step along the path) holds a pawn, so the move
is judged illegal. -/
theorem sliding_blocked_illegal_witness :
    Board.notation_to_index ['a', '1'] = some (7, 0) ∧
    Board.notation_to_index ['a', '3'] = some (5, 0) ∧
    Piece.is_valid_move 'R' ['a', '1'] ['a', '3'] Board.initial =
      some false :=
  ⟨by decide, by decide,
    (@sliding_blocked_illegal 'R' ['a', '1'] ['a', '3'] Board.initial
      7 0 5 0 (by decide) (by decide)
      (Or.inl ⟨by decide, Or.inr rfl⟩)).2
      ⟨1, by omega, by decide, by decide⟩⟩

/-! ### Claim C1: make_move is total and a failure is a no-op -/

/-- With both squares bounds-checked, `is_valid_move` always returns a
boolean and never faults: every `get_piece_at` it performs is on a valid
square name and the sliding-piece branches only walk aligned paths. -/
theorem is_valid_move_isSome (piece : Char) {cur nxt : List Char}
    (b : Board)
    (hcb : Board.is_within_bounds cur = true)
    (hnb : Board.is_within_bounds nxt = true) :
    ∃ v, Piece.is_valid_move piece cur nxt b = some v := by
  obtain ⟨fx, fy, hc⟩ := n2i_of_bounds hcb
  obtain ⟨tx, ty, hn⟩ := n2i_of_bounds hnb
  obtain ⟨hfx0, hfx, hfy0, hfy⟩ := n2i_range hc
  obtain ⟨htx0, htx, hty0, hty⟩ := n2i_range hn
  unfold Piece.is_valid_move
  rw [hc, hn, get_piece_at_eq hn]
  dsimp only
  by_cases h1 : getCell b tx ty ≠ ' '
      ∧ ((piece.isUpper = true ∧ (getCell b tx ty).isUpper = true)
          ∨ (piece.isLower = true ∧ (getCell b tx ty).isLower = true))
  · rw [if_pos h1]; exact ⟨_, rfl⟩
  rw [if_neg h1]
  by_cases h2 : piece.toLower = 'p'
  · rw [if_pos h2]
    by_cases hU : piece.isUpper = true
    · rw [if_pos hU, if_pos hU]
      by_cases h3 : ty - fy = 0 ∧ tx - fx = -1
      · rw [if_pos h3]; exact ⟨_, rfl⟩
      rw [if_neg h3]
      by_cases h4 : ty - fy = 0 ∧ tx - fx = 2 * -1 ∧ fx = 6
      · rw [if_pos h4]
        obtain ⟨sq, hsq, hget⟩ :=
          squareOf_get b (x := fx + -1) (y := fy)
            (by omega) (by omega) hfy0 hfy
        rw [hsq]
        dsimp only
        rw [hget]
        exact ⟨_, rfl⟩
      rw [if_neg h4]
      split
      · exact ⟨_, rfl⟩
      · exact ⟨_, rfl⟩
    · rw [if_neg hU, if_neg hU]
      by_cases h3 : ty - fy = 0 ∧ tx - fx = 1
      · rw [if_pos h3]; exact ⟨_, rfl⟩
      rw [if_neg h3]
      by_cases h4 : ty - fy = 0 ∧ tx - fx = 2 * 1 ∧ fx = 1
      · rw [if_pos h4]
        obtain ⟨sq, hsq, hget⟩ :=
          squareOf_get b (x := fx + 1) (y := fy)
            (by omega) (by omega) hfy0 hfy
        rw [hsq]
        dsimp only
        rw [hget]
        exact ⟨_, rfl⟩
      rw [if_neg h4]
      split
      · exact ⟨_, rfl⟩
      · exact ⟨_, rfl⟩
  rw [if_neg h2]
  by_cases h5 : piece.toLower = 'r'
  · rw [if_pos h5]
    by_cases h6 : fx = tx ∨ fy = ty
    · rw [if_pos h6]
      exact path_is_clear_total b hfx0 hfx hfy0 hfy htx0 htx hty0 hty
        (by rcases h6 with h | h
            · exact Or.inl h
            · exact Or.inr (Or.inl h))
    · rw [if_neg h6]; exact ⟨_, rfl⟩
  rw [if_neg h5]
  by_cases h7 : piece.toLower = 'b'
  · rw [if_pos h7]
    by_cases h8 : (tx - fx).natAbs = (ty - fy).natAbs
    · rw [if_pos h8]
      exact path_is_clear_total b hfx0 hfx hfy0 hfy htx0 htx hty0 hty
        (Or.inr (Or.inr h8))
    · rw [if_neg h8]; exact ⟨_, rfl⟩
  rw [if_neg h7]
  by_cases h9 : piece.toLower = 'n'
  · rw [if_pos h9]
    split
    · exact ⟨_, rfl⟩
    · exact ⟨_, rfl⟩
  rw [if_neg h9]
  by_cases h10 : piece.toLower = 'q'
  · rw [if_pos h10]
    by_cases h11 : fx = tx ∨ fy = ty ∨ (tx - fx).natAbs = (ty - fy).natAbs
    · rw [if_pos h11]
      exact path_is_clear_total b hfx0 hfx hfy0 hfy htx0 htx hty0 hty h11
    · rw [if_neg h11]; exact ⟨_, rfl⟩
  rw [if_neg h10]
  by_cases h12 : piece.toLower = 'k'
  · rw [if_pos h12]
    split
    · exact ⟨_, rfl⟩
    · exact ⟨_, rfl⟩
  rw [if_neg h12]
  exact ⟨_, rfl⟩

/-- Claim C1: `make_move` always returns a boolean — never a fault — on
every game state and every pair of input strings (malformed ones
included), and whenever it returns `False` the whole object (board grid,
turn, game state) is exactly as before the call. -/
theorem make_move_total_and_false_noop (g : ChessVar) (cur nxt : List Char) :
    ∃ r g2, ChessVar.make_move g cur nxt = some (r, g2) ∧
      (r = false → g2 = g) := by
  unfold ChessVar.make_move
  by_cases h1 : g.game_state ≠ "UNFINISHED"
  · rw [if_pos h1]; exact ⟨false, g, rfl, fun _ => rfl⟩
  rw [if_neg h1]
  by_cases h2 : ¬(Board.is_within_bounds cur = true)
      ∨ ¬(Board.is_within_bounds nxt = true)
  · rw [if_pos h2]; exact ⟨false, g, rfl, fun _ => rfl⟩
  rw [if_neg h2]
  push_neg at h2
  obtain ⟨hcb, hnb⟩ := h2
  obtain ⟨fx, fy, hc⟩ := n2i_of_bounds hcb
  rw [get_piece_at_eq hc]
  dsimp only
  rw [if_neg (by simp [charFalsy])]
  by_cases h3 : (g.turn = "WHITE" ∧ (getCell g.board fx fy).isLower = true)
      ∨ (g.turn = "BLACK" ∧ (getCell g.board fx fy).isUpper = true)
  · rw [if_pos h3]; exact ⟨false, g, rfl, fun _ => rfl⟩
  rw [if_neg h3]
  obtain ⟨v, hv⟩ := is_valid_move_isSome (getCell g.board fx fy) g.board hcb hnb
  rw [hv]
  cases v
  · exact ⟨false, g, rfl, fun _ => rfl⟩
  · dsimp only
    obtain ⟨tx, ty, hn⟩ := n2i_of_bounds hnb
    rw [move_piece_eq hc hn]
    dsimp only
    by_cases h4 : getCell g.board fx fy = 'k'
        ∧ centerSquares.contains nxt = true
    · rw [if_pos h4]
      exact ⟨true, _, rfl, fun h => absurd h (by simp)⟩
    rw [if_neg h4]
    by_cases h5 : getCell g.board fx fy = 'K'
        ∧ centerSquares.contains nxt = true
    · rw [if_pos h5]
      exact ⟨true, _, rfl, fun h => absurd h (by simp)⟩
    rw [if_neg h5]
    exact ⟨true, _, rfl, fun h => absurd h (by simp)⟩

/-- Witness for C1 at a concrete call (with a malformed origin, which is
simply refused). -/
theorem make_move_total_and_false_noop_witness :
    ∃ r g2, ChessVar.make_move ChessVar.init ['x'] ['e', '4'] =
      some (r, g2) ∧ (r = false → g2 = ChessVar.init) :=
  make_move_total_and_false_noop ChessVar.init ['x'] ['e', '4']

/-! ### Claim C8: the exact effect of a performed move on the grid -/

/-- The thirteen occupant states of §the data model: one of twelve piece
characters or the `' '` empty marker. -/
def validCell (c : Char) : Bool :=
  [' ', 'p', 'r', 'n', 'b', 'q', 'k', 'P', 'R', 'N', 'B', 'Q', 'K'].contains c

/-- Structural well-formedness of the grid: 8 rows of 8 cells. -/
def boardShape (b : Board) : Bool :=
  b.length == 8 && b.all (fun row => row.length == 8)

/-- Full well-formedness: 8×8 and every cell one of the 13 occupants. -/
def wfBoard (b : Board) : Bool :=
  boardShape b && b.all (fun row => row.all validCell)

theorem list_getD_set_self {α : Type} :
    ∀ (l : List α) (i : Nat) (a d : α), i < l.length →
      (l.set i a).getD i d = a
  | [], _, _, _, h => absurd h (by simp)
  | _ :: _, 0, _, _, _ => rfl
  | _ :: l, i + 1, a, d, h =>
      list_getD_set_self l i a d (by simpa using h)

theorem list_getD_set_ne {α : Type} :
    ∀ (l : List α) (i j : Nat) (a d : α), i ≠ j →
      (l.set i a).getD j d = l.getD j d
  | [], _, _, _, _, _ => rfl
  | _ :: _, 0, 0, _, _, h => absurd rfl h
  | _ :: _, 0, _ + 1, _, _, _ => rfl
  | _ :: _, _ + 1, 0, _, _, _ => rfl
  | _ :: l, i + 1, j + 1, a, d, h =>
      list_getD_set_ne l i j a d (fun e => h (by omega))

theorem list_getD_mem {α : Type} :
    ∀ (l : List α) (i : Nat) (d : α), i < l.length → l.getD i d ∈ l
  | [], _, _, h => absurd h (by simp)
  | x :: l, 0, _, _ => List.mem_cons_self x l
  | x :: l, i + 1, d, h =>
      List.mem_cons_of_mem x (list_getD_mem l i d (by simpa using h))

/-- On a shaped board, every row fetched in range is a length-8 row of
the board. -/
theorem shape_row {b : Board} (hsh : boardShape b = true) {i : Nat}
    (hi : i < 8) :
    b.getD i [] ∈ b ∧ (b.getD i []).length = 8 := by
  unfold boardShape at hsh
  simp only [Bool.and_eq_true, beq_iff_eq, List.all_eq_true] at hsh
  obtain ⟨hlen, hrows⟩ := hsh
  have hmem : b.getD i [] ∈ b := list_getD_mem b i [] (by omega)
  exact ⟨hmem, by simpa using hrows _ hmem⟩

/-- Updating a cell keeps the 8×8 shape. -/
theorem shape_setCell {b : Board} (hsh : boardShape b = true)
    {x y : Int} (hx0 : 0 ≤ x) (hx : x < 8) :
    boardShape (setCell b x y c) = true := by
  obtain ⟨hmem, hrowlen⟩ := shape_row hsh (i := x.toNat) (by omega)
  unfold boardShape at hsh ⊢
  simp only [Bool.and_eq_true, beq_iff_eq, List.all_eq_true] at hsh ⊢
  obtain ⟨hlen, hrows⟩ := hsh
  refine ⟨by simpa [setCell] using hlen, ?_⟩
  intro row hrow
  unfold setCell at hrow
  rcases List.mem_or_eq_of_mem_set hrow with h | h
  · exact hrows row h
  · subst h
    simpa using hrowlen

/-- Writing a cell then reading it back. -/
theorem getCell_setCell_self {b : Board} (hsh : boardShape b = true)
    {x y : Int} (hx0 : 0 ≤ x) (hx : x < 8) (hy0 : 0 ≤ y) (hy : y < 8)
    (c : Char) :
    getCell (setCell b x y c) x y = c := by
  obtain ⟨hmem, hrowlen⟩ := shape_row hsh (i := x.toNat) (by omega)
  have hblen : b.length = 8 := by
    unfold boardShape at hsh
    simp only [Bool.and_eq_true, beq_iff_eq] at hsh
    exact hsh.1
  unfold getCell setCell
  rw [list_getD_set_self b x.toNat _ [] (by omega),
    list_getD_set_self _ y.toNat _ ' ' (by omega)]

/-- Writing a cell leaves every other on-board cell unchanged. -/
theorem getCell_setCell_ne {b : Board} (hsh : boardShape b = true)
    {x y x2 y2 : Int}
    (hx0 : 0 ≤ x) (hx : x < 8) (hy0 : 0 ≤ y) (hy : y < 8)
    (hx20 : 0 ≤ x2) (hx2 : x2 < 8) (hy20 : 0 ≤ y2) (hy2 : y2 < 8)
    (hne : (x2, y2) ≠ (x, y)) (c : Char) :
    getCell (setCell b x y c) x2 y2 = getCell b x2 y2 := by
  have hblen : b.length = 8 := by
    unfold boardShape at hsh
    simp only [Bool.and_eq_true, beq_iff_eq] at hsh
    exact hsh.1
  by_cases hrow : x2.toNat = x.toNat
  · have hxeq : x2 = x := by omega
    have hyne : y2 ≠ y := by
      intro hyeq
      exact hne (by rw [hxeq, hyeq])
    unfold getCell setCell
    rw [hxeq, list_getD_set_self b x.toNat _ [] (by omega),
      list_getD_set_ne _ y.toNat y2.toNat _ ' ' (by omega)]
  · unfold getCell setCell
    rw [list_getD_set_ne b x.toNat x2.toNat _ [] (fun e => hrow e.symm)]

/-- On a well-formed board every on-board cell is one of the 13
occupants. -/
theorem getCell_valid {b : Board} (hwf : wfBoard b = true)
    {x y : Int} (hx0 : 0 ≤ x) (hx : x < 8) (hy0 : 0 ≤ y) (hy : y < 8) :
    validCell (getCell b x y) = true := by
  unfold wfBoard at hwf
  simp only [Bool.and_eq_true, List.all_eq_true] at hwf
  obtain ⟨hsh, hcells⟩ := hwf
  obtain ⟨hmem, hrowlen⟩ := shape_row hsh (i := x.toNat) (by omega)
  have hcell : getCell b x y ∈ b.getD x.toNat [] :=
    list_getD_mem _ y.toNat ' ' (by omega)
  exact hcells _ hmem _ hcell

/-- A move that `is_valid_move` accepts never has origin = destination:
for a cased piece the self-capture test sees itself on the destination,
and an empty or unknown origin falls through every branch to
`return False`. -/
theorem valid_move_origin_ne_dest {piece : Char} {cur nxt : List Char}
    {b : Board} {fx fy : Int}
    (hvc : validCell piece = true)
    (hc : Board.notation_to_index cur = some (fx, fy))
    (hn : Board.notation_to_index nxt = some (fx, fy))
    (hdest : getCell b fx fy = piece)
    (hvm : Piece.is_valid_move piece cur nxt b = some true) : False := by
  unfold Piece.is_valid_move at hvm
  rw [hc, hn, get_piece_at_eq hn] at hvm
  dsimp only at hvm
  rw [hdest] at hvm
  have hvc' : piece = ' ' ∨ piece = 'p' ∨ piece = 'r' ∨ piece = 'n'
      ∨ piece = 'b' ∨ piece = 'q' ∨ piece = 'k' ∨ piece = 'P'
      ∨ piece = 'R' ∨ piece = 'N' ∨ piece = 'B' ∨ piece = 'Q'
      ∨ piece = 'K' := by
    simpa [validCell] using hvc
  rcases hvc' with rfl | rfl | rfl | rfl | rfl | rfl | rfl | rfl | rfl |
    rfl | rfl | rfl | rfl <;>
    first
    | (rw [if_pos (by decide)] at hvm
       exact absurd hvm (by simp))
    | (rw [if_neg (by decide), if_neg (by decide), if_neg (by decide),
        if_neg (by decide), if_neg (by decide), if_neg (by decide),
        if_neg (by decide)] at hvm
       exact absurd hvm (by simp))

/-- Inversion of a successful `make_move`: every guard passed and the
new grid is the one `move_piece` produced. -/
theorem make_move_true_elim {g : ChessVar} {cur nxt : List Char}
    {g2 : ChessVar}
    (h : ChessVar.make_move g cur nxt = some (true, g2)) :
    Board.is_within_bounds cur = true ∧ Board.is_within_bounds nxt = true ∧
    ∃ piece, Board.get_piece_at g.board cur = some piece ∧
      Piece.is_valid_move piece cur nxt g.board = some true ∧
      Board.move_piece g.board cur nxt = some g2.board := by
  unfold ChessVar.make_move at h
  split at h
  · exact absurd h (by simp)
  · split at h
    · exact absurd h (by simp)
    · rename_i hb
      push_neg at hb
      split at h
      · exact absurd h (by simp)
      · rename_i piece hpiece
        split at h
        · exact absurd h (by simp)
        · split at h
          · exact absurd h (by simp)
          · split at h
            · exact absurd h (by simp)
            · exact absurd h (by simp)
            · rename_i hvm
              split at h
              · exact absurd h (by simp)
              · rename_i b2 hmv
                refine ⟨hb.1, hb.2, piece, hpiece, hvm, ?_⟩
                split at h
                · simp only [Option.some.injEq, Prod.mk.injEq] at h
                  rw [hmv]
                  exact congrArg some (congrArg ChessVar.board h.2)
                · split at h
                  · simp only [Option.some.injEq, Prod.mk.injEq] at h
                    rw [hmv]
                    exact congrArg some (congrArg ChessVar.board h.2)
                  · simp only [Option.some.injEq, Prod.mk.injEq] at h
                    rw [hmv]
                    exact congrArg some (congrArg ChessVar.board h.2)

/-- Claim C8: a `make_move` call that returns `True` moves exactly one
occupant: afterwards the destination square holds what the origin held
before the call, the origin square is empty, and every other on-board
square is unchanged (origin and destination are necessarily distinct). -/
theorem move_frame (g : ChessVar) (cur nxt : List Char) (g2 : ChessVar)
    {fx fy tx ty : Int}
    (hwf : wfBoard g.board = true)
    (hmm : ChessVar.make_move g cur nxt = some (true, g2))
    (hc : Board.notation_to_index cur = some (fx, fy))
    (hn : Board.notation_to_index nxt = some (tx, ty)) :
    (fx, fy) ≠ (tx, ty) ∧
    getCell g2.board tx ty = getCell g.board fx fy ∧
    getCell g2.board fx fy = ' ' ∧
    (∀ x y : Int, 0 ≤ x → x < 8 → 0 ≤ y → y < 8 →
      (x, y) ≠ (fx, fy) → (x, y) ≠ (tx, ty) →
      getCell g2.board x y = getCell g.board x y) := by
  obtain ⟨hcb, hnb, piece, hpiece, hvm, hmv⟩ := make_move_true_elim hmm
  obtain ⟨hfx0, hfx, hfy0, hfy⟩ := n2i_range hc
  obtain ⟨htx0, htx, hty0, hty⟩ := n2i_range hn
  have hsh : boardShape g.board = true := by
    unfold wfBoard at hwf
    simp only [Bool.and_eq_true] at hwf
    exact hwf.1
  have hpiece' : piece = getCell g.board fx fy := by
    rw [get_piece_at_eq hc] at hpiece
    exact (Option.some.inj hpiece).symm
  have hne : (fx, fy) ≠ (tx, ty) := by
    intro heq
    have h1 : fx = tx := congrArg Prod.fst heq
    have h2 : fy = ty := congrArg Prod.snd heq
    rw [← h1, ← h2] at hn
    exact valid_move_origin_ne_dest
      (by rw [hpiece']; exact getCell_valid hwf hfx0 hfx hfy0 hfy)
      hc hn hpiece'.symm hvm
  have hb2 : g2.board =
      setCell (setCell g.board tx ty (getCell g.board fx fy)) fx fy ' ' := by
    have hx := (move_piece_eq (b := g.board) hc hn).symm.trans hmv
    exact (Option.some.inj hx).symm
  have hsh1 : boardShape
      (setCell g.board tx ty (getCell g.board fx fy)) = true :=
    shape_setCell hsh htx0 htx
  refine ⟨hne, ?_, ?_, ?_⟩
  · rw [hb2,
      getCell_setCell_ne hsh1 hfx0 hfx hfy0 hfy htx0 htx hty0 hty
        (Ne.symm hne) ' ',
      getCell_setCell_self hsh htx0 htx hty0 hty]
  · rw [hb2, getCell_setCell_self hsh1 hfx0 hfx hfy0 hfy ' ']
  · intro x y hx0 hx hy0 hy hne1 hne2
    rw [hb2,
      getCell_setCell_ne hsh1 hfx0 hfx hfy0 hfy hx0 hx hy0 hy hne1 ' ',
      getCell_setCell_ne hsh htx0 htx hty0 hty hx0 hx hy0 hy hne2 _]

/-- Witness for C8: e2→e4 from the initial position moves the white
pawn from (6,4) to (4,4), empties (6,4) and leaves a8 = (0,0) (and the
other squares) untouched. -/
theorem move_frame_witness :
    wfBoard ChessVar.init.board = true ∧
    ChessVar.make_move ChessVar.init ['e', '2'] ['e', '4'] =
      some (true, gameAfterE2E4) ∧
    ((6, 4) : Int × Int) ≠ (4, 4) ∧
    getCell gameAfterE2E4.board 4 4 = getCell ChessVar.init.board 6 4 ∧
    getCell gameAfterE2E4.board 6 4 = ' ' ∧
    getCell gameAfterE2E4.board 0 0 = getCell ChessVar.init.board 0 0 := by
  have H := @move_frame ChessVar.init ['e', '2'] ['e', '4'] gameAfterE2E4
    6 4 4 4 (by decide) (by decide) (by decide) (by decide)
  exact ⟨by decide, by decide, H.1, H.2.1, H.2.2.1,
    H.2.2.2 0 0 (by omega) (by omega) (by omega) (by omega)
      (by decide) (by decide)⟩
